import Mathlib

set_option maxHeartbeats 1000000

/-!
Shallow embedding of reth's `BundleStateWithReceipts`
(crates/storage/provider/src/bundle_state/bundle_state_with_receipts.rs).

Addresses, hashes, slot keys and 256-bit words are modelled as natural numbers;
the cryptographic hash `keccak256`, the `logs_bloom` fold and the receipts-root
tree builder are external primitives and are taken as function parameters.
The revm `BundleState` container and the reth `Receipts` / `HashedPostState`
types are not part of the sources under verification; they are modelled from
the specification's data-model section.
-/

/-- Ethereum account: nonce, balance, optional bytecode hash. -/
structure Account where
  nonce : Nat
  balance : Nat
  bytecodeHash : Option Nat
deriving Repr, DecidableEq

/-- Storage slot diff: original and present value. -/
structure StorageSlot where
  originalValue : Nat
  presentValue : Nat
deriving Repr, DecidableEq

/-- Modelled from the spec: the three-way account-revert marker of a RevertLayer —
unknown prior state, known-to-not-have-existed, or known prior account. -/
inductive AccountInfoRevert
  | doNothing
  | deleteIt
  | revertTo (info : Account)
deriving Repr, DecidableEq

/-- Modelled from the spec: per-address revert record of one RevertLayer — the
three-way account marker, a list of (slot key, prior value) pairs and a wipe flag. -/
structure AccountRevert where
  account : AccountInfoRevert
  storage : List (Nat × Nat)
  wipeStorage : Bool
deriving Repr, DecidableEq

/-- Modelled from the spec: per-address aggregated diff entry (revm `BundleAccount`) —
original account, present account, aggregated storage diffs and a destroyed flag. -/
structure BundleAccount where
  info : Option Account
  originalInfo : Option Account
  storage : List (Nat × StorageSlot)
  wasDestroyed : Bool
deriving Repr, DecidableEq

/-- Modelled from the spec: revm `BundleState` — the account-entry map, the ordered
sequence of RevertLayers (oldest first, one per block) and the contract cache. -/
structure BundleState where
  state : List (Nat × BundleAccount)
  contracts : List (Nat × Nat)
  reverts : List (List (Nat × AccountRevert))
deriving Repr, DecidableEq

/-- Receipt: success flag, cumulative gas used, and logs (logs abstracted as numbers). -/
structure Receipt where
  success : Bool
  cumulativeGasUsed : Nat
  logs : List Nat
deriving Repr, DecidableEq

/-- Bundle state of post-execution changes and reverts together with the per-block
receipts (`None` marks a pruned receipt) and the first covered block number. -/
structure BundleStateWithReceipts where
  bundle : BundleState
  receipts : List (List (Option Receipt))
  first_block : Nat
deriving Repr, DecidableEq

/-- Association-list lookup keyed by naturals (first match wins). -/
def lookupL {α : Type} : List (Nat × α) → Nat → Option α
  | [], _ => none
  | p :: rest, k => if p.1 = k then some p.2 else lookupL rest k

/-- Set the present value of slot `k` to `v`, inserting the slot if absent. -/
def setPresent (st : List (Nat × StorageSlot)) (k v : Nat) : List (Nat × StorageSlot) :=
  if (lookupL st k).isSome then
    st.map (fun p => if p.1 = k then (p.1, { p.2 with presentValue := v }) else p)
  else
    st ++ [(k, { originalValue := v, presentValue := v })]

/-- Restore each listed slot of a revert record to its recorded prior value. -/
def applySlotReverts (st : List (Nat × StorageSlot)) (rs : List (Nat × Nat)) :
    List (Nat × StorageSlot) :=
  rs.foldl (fun acc q => setPresent acc q.1 q.2) st

/-- Modelled from the spec: apply a per-address revert record to a bundle entry —
the marker restores the prior account, the wipe flag clears storage, and the
listed slots are restored to their prior values. -/
def BundleAccount.applyRevert (e : BundleAccount) (r : AccountRevert) : BundleAccount :=
  { e with
    info :=
      match r.account with
      | .doNothing => e.info
      | .deleteIt => none
      | .revertTo a => some a
    storage := applySlotReverts (if r.wipeStorage then [] else e.storage) r.storage }

/-- Apply one per-address revert record at address `a` inside the state map. -/
def applyRevertAt (st : List (Nat × BundleAccount)) (a : Nat) (r : AccountRevert) :
    List (Nat × BundleAccount) :=
  st.map (fun p => if p.1 = a then (p.1, p.2.applyRevert r) else p)

/-- Apply one whole RevertLayer to the state map. -/
def applyLayer (st : List (Nat × BundleAccount)) (layer : List (Nat × AccountRevert)) :
    List (Nat × BundleAccount) :=
  layer.foldl (fun acc q => applyRevertAt acc q.1 q.2) st

/-- Modelled from the spec: pop the newest RevertLayer and apply it to the state. -/
def BundleState.revertOne (b : BundleState) : BundleState :=
  match b.reverts.getLast? with
  | none => b
  | some layer => { b with state := applyLayer b.state layer, reverts := b.reverts.dropLast }

/-- Modelled from the spec: revert the last `n` blocks by popping and applying
the newest `n` RevertLayers. -/
def BundleState.revert : BundleState → Nat → BundleState
  | b, 0 => b
  | b, n + 1 => BundleState.revert b.revertOne n

/-- Modelled from the spec: detach the first `n` RevertLayers without touching
the aggregated state. -/
def BundleState.take_n_reverts (b : BundleState) (n : Nat) : BundleState :=
  { b with reverts := b.reverts.drop n }

/-- Merge a second storage-diff map over a first one; the second map wins. -/
def mergeStorage (a b : List (Nat × StorageSlot)) : List (Nat × StorageSlot) :=
  b ++ a.filter (fun p => (lookupL b p.1).isNone)

/-- Modelled from the spec: extend a bundle entry with a later one — present
account and storage of the later entry win, the original account is kept. -/
def BundleAccount.extendWith (e o : BundleAccount) : BundleAccount :=
  { info := o.info
    originalInfo := e.originalInfo
    storage := mergeStorage e.storage o.storage
    wasDestroyed := e.wasDestroyed || o.wasDestroyed }

/-- Merge one entry of the earlier state with the later state's entry at the
same address, when present. -/
def mergeEntry (b : List (Nat × BundleAccount)) (p : Nat × BundleAccount) :
    Nat × BundleAccount :=
  match lookupL b p.1 with
  | some o => (p.1, p.2.extendWith o)
  | none => p

/-- Merge a later state map over an earlier one, entrywise. -/
def mergeState (a b : List (Nat × BundleAccount)) : List (Nat × BundleAccount) :=
  a.map (mergeEntry b) ++ b.filter (fun p => (lookupL a p.1).isNone)

/-- Modelled from the spec: revm `BundleState::extend` — merge the later state
over the earlier one and append the later RevertLayers. -/
def BundleState.extend (s o : BundleState) : BundleState :=
  { state := mergeState s.state o.state
    contracts := s.contracts ++ o.contracts
    reverts := s.reverts ++ o.reverts }

namespace BundleStateWithReceipts

/-- Number of blocks in bundle state. -/
def len (s : BundleStateWithReceipts) : Nat := s.receipts.length

/-- Transform block number to the index of block. -/
def block_number_to_index (s : BundleStateWithReceipts) (block_number : Nat) : Option Nat :=
  if s.first_block > block_number then none
  else
    let index := block_number - s.first_block
    if index ≥ s.receipts.length then none else some index

/-- Get account if account is known. -/
def account (s : BundleStateWithReceipts) (address : Nat) : Option (Option Account) :=
  (lookupL s.bundle.state address).map (fun a => a.info)

/-- Get storage if value is known. -/
def storage (s : BundleStateWithReceipts) (address storage_key : Nat) : Option Nat :=
  (lookupL s.bundle.state address).bind
    (fun a => (lookupL a.storage storage_key).map (fun v => v.presentValue))

/-- Return all block receipts; empty slice when the block is not addressable. -/
def receipts_by_block (s : BundleStateWithReceipts) (block_number : Nat) :
    List (Option Receipt) :=
  match s.block_number_to_index block_number with
  | none => []
  | some index => s.receipts.getD index []

/-- Returns the logs of a block: non-pruned receipts in order, each receipt's
logs in order; `none` when the block is not addressable. -/
def logs (s : BundleStateWithReceipts) (block_number : Nat) : Option (List Nat) :=
  (s.block_number_to_index block_number).map (fun index =>
    ((s.receipts.getD index []).filterMap (fun r => r.map Receipt.logs)).flatten)

/-- Block logs bloom; the bloom fold over logs is an external primitive `bloomOf`. -/
def block_logs_bloom (bloomOf : List Nat → Nat) (s : BundleStateWithReceipts)
    (block_number : Nat) : Option Nat :=
  (s.logs block_number).map bloomOf

/-- Receipts root for one block. Modelled from the spec: the binary hash tree
built over the block's encoded receipts (`Receipts::root_slow`, not under the
sources here) is taken as an external primitive `rootOf`. -/
def receipts_root_slow (rootOf : List (Option Receipt) → Nat)
    (s : BundleStateWithReceipts) (block_number : Nat) : Option Nat :=
  (s.block_number_to_index block_number).map (fun index => rootOf (s.receipts.getD index []))

/-- Revert to given block number; returns whether anything was reverted together
with the updated state. -/
def revert_to (s : BundleStateWithReceipts) (block_number : Nat) :
    Bool × BundleStateWithReceipts :=
  match s.block_number_to_index block_number with
  | none => (false, s)
  | some index =>
    let new_len := index + 1
    let rm_trx := s.receipts.length - new_len
    (true, { s with receipts := s.receipts.take new_len, bundle := s.bundle.revert rm_trx })

/-- Splits the block range state at a given block number; `none` models the
panic on an invalid split point. -/
def split_at (s : BundleStateWithReceipts) (at_ : Nat) :
    Option (Option BundleStateWithReceipts × BundleStateWithReceipts) :=
  if at_ = s.first_block then some (none, s)
  else if at_ = 0 then none
  else
    let lower_state := (s.revert_to (at_ - 1)).2
    match s.block_number_to_index at_ with
    | none => none
    | some at_idx =>
      some (some lower_state,
        { bundle := s.bundle.take_n_reverts at_idx
          receipts := s.receipts.drop at_idx
          first_block := at_ })

/-- Extend one state from another. -/
def extend (s o : BundleStateWithReceipts) : BundleStateWithReceipts :=
  { s with bundle := s.bundle.extend o.bundle, receipts := s.receipts ++ o.receipts }

end BundleStateWithReceipts

namespace BundleStateWithReceipts

theorem block_number_to_index_some (s : BundleStateWithReceipts) (b : Nat)
    (h1 : s.first_block ≤ b) (h2 : b < s.first_block + s.receipts.length) :
    s.block_number_to_index b = some (b - s.first_block) := by
  simp only [block_number_to_index, gt_iff_lt]
  rw [if_neg (by omega), if_neg (by omega)]

theorem block_number_to_index_none (s : BundleStateWithReceipts) (b : Nat)
    (h : ¬(s.first_block ≤ b ∧ b < s.first_block + s.receipts.length)) :
    s.block_number_to_index b = none := by
  simp only [block_number_to_index, gt_iff_lt]
  by_cases h1 : b < s.first_block
  · rw [if_pos h1]
  · rw [if_neg h1, if_pos (by omega)]

theorem block_number_to_index_some_inv (s : BundleStateWithReceipts) (b i : Nat)
    (h : s.block_number_to_index b = some i) :
    s.first_block ≤ b ∧ b < s.first_block + s.receipts.length ∧ i = b - s.first_block := by
  by_cases hr : s.first_block ≤ b ∧ b < s.first_block + s.receipts.length
  · rw [block_number_to_index_some s b hr.1 hr.2] at h
    exact ⟨hr.1, hr.2, (Option.some.inj h).symm⟩
  · rw [block_number_to_index_none s b hr] at h
    cases h

theorem block_number_to_index_eq_none_iff (s : BundleStateWithReceipts) (b : Nat) :
    s.block_number_to_index b = none ↔
      ¬(s.first_block ≤ b ∧ b < s.first_block + s.receipts.length) := by
  constructor
  · intro h hr
    rw [block_number_to_index_some s b hr.1 hr.2] at h
    cases h
  · exact block_number_to_index_none s b

end BundleStateWithReceipts

theorem BundleState.revertOne_reverts (b : BundleState) :
    b.revertOne.reverts = b.reverts.dropLast := by
  unfold BundleState.revertOne
  cases hg : b.reverts.getLast? with
  | none =>
    have : b.reverts = [] := List.getLast?_eq_none_iff.mp hg
    rw [this]
    rfl
  | some layer => rfl

theorem BundleState.revert_reverts (n : Nat) : ∀ (b : BundleState),
    n ≤ b.reverts.length →
    (b.revert n).reverts = b.reverts.take (b.reverts.length - n) := by
  induction n with
  | zero =>
    intro b _
    show b.reverts = b.reverts.take (b.reverts.length - 0)
    rw [Nat.sub_zero, List.take_length]
  | succ n ih =>
    intro b h
    show (b.revertOne.revert n).reverts = _
    have hone := BundleState.revertOne_reverts b
    have hlen : b.revertOne.reverts.length = b.reverts.length - 1 := by
      rw [hone, List.length_dropLast]
    rw [ih b.revertOne (by omega), hone, List.length_dropLast, List.dropLast_eq_take,
      List.take_take]
    congr 1
    omega

namespace BundleStateWithReceipts

/-- C2: for every bundle state whose revert-layer count matches its receipt count,
`revert_to b` with `b` addressable returns `true`, truncates the receipts to exactly
`b - first_block + 1` blocks and pops the trailing revert layers so that block `b`
itself remains present; for `b` outside the range it returns `false` and leaves the
state unchanged. -/
theorem c2_revert_to_range (s : BundleStateWithReceipts) (b : Nat)
    (hlen : s.bundle.reverts.length = s.receipts.length) :
    (s.first_block ≤ b ∧ b < s.first_block + s.receipts.length →
      (s.revert_to b).1 = true ∧
      (s.revert_to b).2.receipts = s.receipts.take (b - s.first_block + 1) ∧
      (s.revert_to b).2.receipts.length = b - s.first_block + 1 ∧
      (s.revert_to b).2.bundle.reverts = s.bundle.reverts.take (b - s.first_block + 1)) ∧
    (¬(s.first_block ≤ b ∧ b < s.first_block + s.receipts.length) →
      s.revert_to b = (false, s)) := by
  constructor
  · rintro ⟨h1, h2⟩
    have hb := block_number_to_index_some s b h1 h2
    refine ⟨?_, ?_, ?_, ?_⟩
    · simp [revert_to, hb]
    · simp [revert_to, hb]
    · simp [revert_to, hb, List.length_take]
      omega
    · simp only [revert_to, hb]
      rw [BundleState.revert_reverts _ _ (by omega)]
      congr 1
      omega
  · intro h
    simp only [revert_to, block_number_to_index_none s b h]

end BundleStateWithReceipts

/-- Default receipt used by concrete instances. -/
def rc : Receipt := { success := true, cumulativeGasUsed := 0, logs := [] }

/-- Concrete bundle covering blocks 10 to 16, 7 blocks with 2 receipt slots each. -/
def base2 : BundleStateWithReceipts :=
  { bundle := { state := [], contracts := [], reverts := List.replicate 7 [] }
    receipts := List.replicate 7 [some rc, some rc]
    first_block := 10 }

/-- Witness for C2 at the concrete scenario of the spec: `revert_to 15` keeps six
blocks, `revert_to 9` and `revert_to 17` return false and change nothing. -/
theorem c2_revert_to_range_witness :
    ((base2.revert_to 15).1 = true ∧
      (base2.revert_to 15).2.receipts = base2.receipts.take 6 ∧
      (base2.revert_to 15).2.receipts.length = 6 ∧
      (base2.revert_to 15).2.bundle.reverts = base2.bundle.reverts.take 6) ∧
    base2.revert_to 9 = (false, base2) ∧ base2.revert_to 17 = (false, base2) :=
  ⟨(BundleStateWithReceipts.c2_revert_to_range base2 15 (by decide)).1 (by decide),
   (BundleStateWithReceipts.c2_revert_to_range base2 9 (by decide)).2 (by decide),
   (BundleStateWithReceipts.c2_revert_to_range base2 17 (by decide)).2 (by decide)⟩

namespace BundleStateWithReceipts

/-- C7: the block-number-to-index mapping returns `b - first_block` for every
addressable `b` and `none` outside the range; consequently `logs`,
`block_logs_bloom` and `receipts_root_slow` return `none` exactly when the block
is not addressable. -/
theorem c7_block_number_to_index (bloomOf : List Nat → Nat)
    (rootOf : List (Option Receipt) → Nat) (s : BundleStateWithReceipts) (b : Nat) :
    (s.first_block ≤ b ∧ b < s.first_block + s.receipts.length →
      s.block_number_to_index b = some (b - s.first_block)) ∧
    (¬(s.first_block ≤ b ∧ b < s.first_block + s.receipts.length) →
      s.block_number_to_index b = none) ∧
    (s.logs b = none ↔ ¬(s.first_block ≤ b ∧ b < s.first_block + s.receipts.length)) ∧
    (block_logs_bloom bloomOf s b = none ↔
      ¬(s.first_block ≤ b ∧ b < s.first_block + s.receipts.length)) ∧
    (receipts_root_slow rootOf s b = none ↔
      ¬(s.first_block ≤ b ∧ b < s.first_block + s.receipts.length)) := by
  have hiff := block_number_to_index_eq_none_iff s b
  refine ⟨fun hr => block_number_to_index_some s b hr.1 hr.2,
    block_number_to_index_none s b, ?_, ?_, ?_⟩
  · rw [← hiff, logs, Option.map_eq_none']
  · rw [← hiff, block_logs_bloom, Option.map_eq_none', logs, Option.map_eq_none']
  · rw [← hiff, receipts_root_slow, Option.map_eq_none']

end BundleStateWithReceipts

/-- Witness for C7 on the concrete bundle covering blocks 10 to 16. -/
theorem c7_block_number_to_index_witness :
    base2.block_number_to_index 12 = some 2 ∧
    base2.block_number_to_index 20 = none ∧
    base2.logs 20 = none :=
  ⟨(BundleStateWithReceipts.c7_block_number_to_index (fun _ => 0) (fun _ => 0)
      base2 12).1 (by decide),
   (BundleStateWithReceipts.c7_block_number_to_index (fun _ => 0) (fun _ => 0)
      base2 20).2.1 (by decide),
   (BundleStateWithReceipts.c7_block_number_to_index (fun _ => 0) (fun _ => 0)
      base2 20).2.2.1.mpr (by decide)⟩

namespace BundleStateWithReceipts

/-- C9: `receipts_by_block` called with a block number outside the addressable
range returns the empty list, indistinguishable from an addressable block with
zero receipts. -/
theorem c9_receipts_by_block_out_of_range (s : BundleStateWithReceipts) (b : Nat)
    (h : ¬(s.first_block ≤ b ∧ b < s.first_block + s.receipts.length)) :
    s.receipts_by_block b = [] := by
  simp only [receipts_by_block, block_number_to_index_none s b h]

end BundleStateWithReceipts

/-- Witness for C9: probing below and above the concrete range yields the empty list. -/
theorem c9_receipts_by_block_out_of_range_witness :
    base2.receipts_by_block 9 = [] ∧ base2.receipts_by_block 17 = [] :=
  ⟨BundleStateWithReceipts.c9_receipts_by_block_out_of_range base2 9 (by decide),
   BundleStateWithReceipts.c9_receipts_by_block_out_of_range base2 17 (by decide)⟩

namespace BundleStateWithReceipts

/-- C8: once `revert_to b` has succeeded, re-applying `revert_to` with the same
or any larger block number changes neither the receipts nor the bundle. -/
theorem c8_revert_to_idempotent (s : BundleStateWithReceipts) (b bQ : Nat)
    (hb : (s.revert_to b).1 = true) (hbb : b ≤ bQ) :
    ((s.revert_to b).2.revert_to bQ).2 = (s.revert_to b).2 := by
  cases hval : s.block_number_to_index b with
  | none =>
    rw [revert_to, hval] at hb
    cases hb
  | some idx =>
    obtain ⟨h1, h2, h3⟩ := block_number_to_index_some_inv s b idx hval
    simp only [revert_to, hval]
    have hlen1 : (s.receipts.take (idx + 1)).length = idx + 1 := by
      simp [List.length_take]
      omega
    by_cases hcase : bQ < s.first_block + (idx + 1)
    · have hbq : bQ = b := by omega
      subst hbq
      have hsome := block_number_to_index_some
        ({ s with
            receipts := s.receipts.take (idx + 1)
            bundle := s.bundle.revert (s.receipts.length - (idx + 1)) }) bQ
        (show s.first_block ≤ bQ from h1)
        (show bQ < s.first_block + (s.receipts.take (idx + 1)).length by
          rw [hlen1]; omega)
      rw [show bQ - s.first_block = idx from by omega] at hsome
      simp only [revert_to, hsome, hlen1]
      rw [Nat.sub_self]
      show ({ s with
          receipts := (s.receipts.take (idx + 1)).take (idx + 1)
          bundle := (s.bundle.revert (s.receipts.length - (idx + 1))).revert 0 } :
        BundleStateWithReceipts) = _
      rw [List.take_take, Nat.min_self]
      rfl
    · have hnone := block_number_to_index_none
        ({ s with
            receipts := s.receipts.take (idx + 1)
            bundle := s.bundle.revert (s.receipts.length - (idx + 1)) }) bQ
        (show ¬(s.first_block ≤ bQ ∧
            bQ < s.first_block + (s.receipts.take (idx + 1)).length) by
          rw [hlen1]; omega)
      simp only [revert_to, hnone]

end BundleStateWithReceipts

/-- Witness for C8: reverting the concrete bundle to block 12 and then reverting
again to 12 or to 15 changes nothing further. -/
theorem c8_revert_to_idempotent_witness :
    ((base2.revert_to 12).2.revert_to 12).2 = (base2.revert_to 12).2 ∧
    ((base2.revert_to 12).2.revert_to 15).2 = (base2.revert_to 12).2 :=
  ⟨BundleStateWithReceipts.c8_revert_to_idempotent base2 12 12 (by decide) (by decide),
   BundleStateWithReceipts.c8_revert_to_idempotent base2 12 15 (by decide) (by decide)⟩

namespace BundleStateWithReceipts

theorem split_at_eq_of_lt (s : BundleStateWithReceipts) (at_ : Nat)
    (h1 : s.first_block < at_) (h2 : at_ < s.first_block + s.receipts.length) :
    s.split_at at_ = some (some (s.revert_to (at_ - 1)).2,
      { bundle := s.bundle.take_n_reverts (at_ - s.first_block)
        receipts := s.receipts.drop (at_ - s.first_block)
        first_block := at_ }) := by
  rw [split_at, if_neg (by omega : ¬at_ = s.first_block), if_neg (by omega : ¬at_ = 0),
    block_number_to_index_some s at_ (by omega) h2]

theorem split_at_eq_none_iff (s : BundleStateWithReceipts) (at_ : Nat) :
    s.split_at at_ = none ↔
      (at_ ≠ s.first_block ∧
        ¬(s.first_block < at_ ∧ at_ < s.first_block + s.receipts.length)) := by
  by_cases hfb : at_ = s.first_block
  · subst hfb
    rw [split_at, if_pos rfl]
    exact ⟨fun h => (Option.some_ne_none _ h).elim, fun ⟨hne, _⟩ => absurd rfl hne⟩
  · by_cases h0 : at_ = 0
    · subst h0
      rw [split_at, if_neg hfb, if_pos rfl]
      exact ⟨fun _ => ⟨hfb, by omega⟩, fun _ => rfl⟩
    · by_cases hin : s.first_block ≤ at_ ∧ at_ < s.first_block + s.receipts.length
      · rw [split_at_eq_of_lt s at_ (by omega) hin.2]
        exact ⟨fun h => (Option.some_ne_none _ h).elim,
          fun ⟨hne, hnr⟩ => absurd ⟨by omega, hin.2⟩ hnr⟩
      · rw [split_at, if_neg hfb, if_neg h0, block_number_to_index_none s at_ hin]
        exact ⟨fun _ => ⟨hfb, by omega⟩, fun _ => rfl⟩

/-- C1 (amended): for `first_block < at < first_block + len`, `split_at at`
succeeds, the lower half is the original reverted to `at - 1`, the upper half
keeps the bundle minus the first `at - first_block` revert layers, the receipt
suffix from `at`, and has `first_block = at`; `split_at` fails exactly when
`at` is neither `first_block` nor strictly inside `(first_block,
first_block + len)` — in particular it also fails at `at = first_block + len`. -/
theorem c1_split_at_range (s : BundleStateWithReceipts) (at_ : Nat) :
    (s.first_block < at_ ∧ at_ < s.first_block + s.receipts.length →
      s.split_at at_ = some (some (s.revert_to (at_ - 1)).2,
        { bundle := s.bundle.take_n_reverts (at_ - s.first_block)
          receipts := s.receipts.drop (at_ - s.first_block)
          first_block := at_ })) ∧
    (s.split_at at_ = none ↔
      (at_ ≠ s.first_block ∧
        ¬(s.first_block < at_ ∧ at_ < s.first_block + s.receipts.length))) :=
  ⟨fun hr => split_at_eq_of_lt s at_ hr.1 hr.2, split_at_eq_none_iff s at_⟩

end BundleStateWithReceipts

/-- C1 counterexample: for the concrete bundle covering blocks 10 to 16 the split
point 17 satisfies `first_block < 17 ≤ first_block + len`, yet `split_at 17`
hits the invariant violation (models the panic) instead of succeeding. -/
theorem c1_split_at_counterexample :
    base2.first_block < 17 ∧ 17 ≤ base2.first_block + base2.receipts.length ∧
    base2.split_at 17 = none := by decide

/-- Witness for C1 at the concrete bundle and the interior split point 12. -/
theorem c1_split_at_range_witness :
    base2.split_at 12 = some (some (base2.revert_to 11).2,
      { bundle := base2.bundle.take_n_reverts 2
        receipts := base2.receipts.drop 2
        first_block := 12 }) :=
  (BundleStateWithReceipts.c1_split_at_range base2 12).1 (by decide)

namespace BundleStateWithReceipts

/-- C10: for a valid interior split point the upper half returned by `split_at`
keeps the entire aggregated plain state and the contract cache of the original
bundle unchanged; only the revert layers, the receipts and `first_block` change. -/
theorem c10_split_at_upper_frame (s : BundleStateWithReceipts) (at_ : Nat)
    (h1 : s.first_block < at_) (h2 : at_ < s.first_block + s.receipts.length) :
    ∃ lo hi, s.split_at at_ = some (some lo, hi) ∧
      hi.bundle.state = s.bundle.state ∧
      hi.bundle.contracts = s.bundle.contracts ∧
      hi.bundle.reverts = s.bundle.reverts.drop (at_ - s.first_block) ∧
      hi.receipts = s.receipts.drop (at_ - s.first_block) ∧
      hi.first_block = at_ :=
  ⟨(s.revert_to (at_ - 1)).2, _, split_at_eq_of_lt s at_ h1 h2,
    rfl, rfl, rfl, rfl, rfl⟩

end BundleStateWithReceipts

/-- Witness for C10 at the concrete bundle and split point 12. -/
theorem c10_split_at_upper_frame_witness :
    ∃ lo hi, base2.split_at 12 = some (some lo, hi) ∧
      hi.bundle.state = base2.bundle.state ∧
      hi.bundle.contracts = base2.bundle.contracts ∧
      hi.bundle.reverts = base2.bundle.reverts.drop 2 ∧
      hi.receipts = base2.receipts.drop 2 ∧
      hi.first_block = 12 :=
  BundleStateWithReceipts.c10_split_at_upper_frame base2 12 (by decide) (by decide)

/-- Inner receipt loop of `write_to_db` for one block: each present receipt is
appended at key `first_tx_index + tx_idx`; pruned (`none`) slots are skipped. -/
def blockReceiptWrites (first_tx_index : Nat) : Nat → List (Option Receipt) →
    List (Nat × Receipt)
  | _, [] => []
  | tx_idx, none :: rest => blockReceiptWrites first_tx_index (tx_idx + 1) rest
  | tx_idx, some r :: rest =>
    (first_tx_index + tx_idx, r) :: blockReceiptWrites first_tx_index (tx_idx + 1) rest

/-- Receipt-writing loop of `write_to_db` over the blocks: `bodies` is the
external block-body index (block number to first global transaction index).
Blocks with an empty receipt list are skipped without a lookup; for any other
block a missing body entry is the invariant violation, modelled as `none`. -/
def writeReceiptsGo (bodies : Nat → Option Nat) (first_block : Nat) :
    Nat → List (List (Option Receipt)) → Option (List (Nat × Receipt))
  | _, [] => some []
  | idx, rs :: rest =>
    if rs.isEmpty then writeReceiptsGo bodies first_block (idx + 1) rest
    else
      match bodies (first_block + idx) with
      | none => none
      | some first_tx_index =>
        (writeReceiptsGo bodies first_block (idx + 1) rest).map
          (fun tail => blockReceiptWrites first_tx_index 0 rs ++ tail)

/-- Receipt phase of `write_to_db`: the ordered list of (global transaction
index, receipt) pairs appended to the receipts table, or `none` on the
invariant violation. -/
def BundleStateWithReceipts.write_to_db_receipts (bodies : Nat → Option Nat)
    (s : BundleStateWithReceipts) : Option (List (Nat × Receipt)) :=
  writeReceiptsGo bodies s.first_block 0 s.receipts

/-- Spec-side description of one block's receipt writes: each present receipt
of the block is written at key `first_tx_index + local offset`, pruned slots
are skipped entirely. -/
def specBlockWrites (first_tx_index : Nat) (rs : List (Option Receipt)) :
    List (Nat × Receipt) :=
  (List.range rs.length).filterMap
    (fun j => (rs.getD j none).map (fun r => (first_tx_index + j, r)))

/-- Spec-side description of the receipt phase: for each block with at least one
non-pruned receipt, resolve the block's first global transaction index from the
block-body index and append each present receipt at first index plus offset. -/
def specReceiptWrites (bodies : Nat → Option Nat) (first_block : Nat) :
    Nat → List (List (Option Receipt)) → List (Nat × Receipt)
  | _, [] => []
  | idx, rs :: rest =>
    (if rs.any (fun o => o.isSome) then
      match bodies (first_block + idx) with
      | some first_tx_index => specBlockWrites first_tx_index rs
      | none => []
    else []) ++ specReceiptWrites bodies first_block (idx + 1) rest

theorem blockReceiptWrites_eq_spec (rs : List (Option Receipt)) : ∀ (f j : Nat),
    blockReceiptWrites f j rs = (List.range rs.length).filterMap
      (fun i => (rs.getD i none).map (fun r => (f + (j + i), r))) := by
  induction rs with
  | nil => intro f j; rfl
  | cons o rest ih =>
    intro f j
    rw [List.length_cons, List.range_succ_eq_map, List.filterMap_cons, List.filterMap_map]
    cases o with
    | none =>
      show blockReceiptWrites f (j + 1) rest = _
      rw [ih f (j + 1)]
      apply List.filterMap_congr
      intro i _
      show ((rest.getD i none).map fun r => (f + (j + 1 + i), r)) = _
      rw [show j + 1 + i = j + Nat.succ i from by omega]
      rfl
    | some r =>
      show (f + j, r) :: blockReceiptWrites f (j + 1) rest = _
      rw [ih f (j + 1)]
      show _ = (f + (j + 0), r) :: _
      rw [Nat.add_zero]
      congr 1
      apply List.filterMap_congr
      intro i _
      show ((rest.getD i none).map fun r => (f + (j + 1 + i), r)) = _
      rw [show j + 1 + i = j + Nat.succ i from by omega]
      rfl

theorem blockReceiptWrites_all_pruned (rs : List (Option Receipt))
    (h : rs.any (fun o => o.isSome) = false) : ∀ (f j : Nat),
    blockReceiptWrites f j rs = [] := by
  induction rs with
  | nil => intro f j; rfl
  | cons o rest ih =>
    intro f j
    cases o with
    | none =>
      simp only [List.any_cons, Option.isSome_none, Bool.false_or] at h
      exact ih h f (j + 1)
    | some r => simp at h

theorem writeReceiptsGo_eq_spec (bodies : Nat → Option Nat) (fb : Nat)
    (blocks : List (List (Option Receipt))) : ∀ (idx : Nat),
    (∀ i, i < blocks.length → blocks.getD i [] ≠ [] →
      (bodies (fb + (idx + i))).isSome) →
    writeReceiptsGo bodies fb idx blocks =
      some (specReceiptWrites bodies fb idx blocks) := by
  induction blocks with
  | nil => intro idx _; rfl
  | cons rs rest ih =>
    intro idx hall
    have hrest : ∀ i, i < rest.length → rest.getD i [] ≠ [] →
        (bodies (fb + (idx + 1 + i))).isSome := by
      intro i hi hne
      have hcall := hall (i + 1) (by simpa using Nat.succ_lt_succ hi) (by simpa using hne)
      rwa [show idx + (i + 1) = idx + 1 + i from by omega] at hcall
    rw [writeReceiptsGo, specReceiptWrites]
    by_cases hemp : rs.isEmpty
    · rw [if_pos hemp]
      have hany : rs.any (fun o => o.isSome) = false := by
        cases rs with
        | nil => rfl
        | cons a l => simp [List.isEmpty] at hemp
      rw [hany, ih (idx + 1) hrest]
      simp
    · rw [if_neg hemp]
      have hne : rs ≠ [] := by
        cases rs with
        | nil => simp [List.isEmpty] at hemp
        | cons a l => simp
      have hsome := hall 0 (by simp [Nat.succ_pos]) (by simpa using hne)
      rw [Nat.add_zero] at hsome
      cases hb : bodies (fb + idx) with
      | none => rw [hb] at hsome; cases hsome
      | some f =>
        have hblock : blockReceiptWrites f 0 rs =
            (if rs.any (fun o => o.isSome) then specBlockWrites f rs else []) := by
          by_cases hany : rs.any (fun o => o.isSome)
          · rw [if_pos hany, blockReceiptWrites_eq_spec rs f 0, specBlockWrites]
            apply List.filterMap_congr
            intro i _
            rw [Nat.zero_add]
          · rw [if_neg hany,
              blockReceiptWrites_all_pruned rs (Bool.eq_false_iff.mpr hany) f 0]
        rw [ih (idx + 1) hrest]
        show Option.map (fun tail => blockReceiptWrites f 0 rs ++ tail)
            (some (specReceiptWrites bodies fb (idx + 1) rest)) =
          some ((if (rs.any fun o => o.isSome) = true then specBlockWrites f rs
            else []) ++ specReceiptWrites bodies fb (idx + 1) rest)
        rw [Option.map_some', hblock]

theorem writeReceiptsGo_frame (bodies bodies2 : Nat → Option Nat) (fb : Nat)
    (blocks : List (List (Option Receipt))) : ∀ (idx : Nat),
    (∀ i, i < blocks.length → blocks.getD i [] ≠ [] →
      bodies2 (fb + (idx + i)) = bodies (fb + (idx + i))) →
    writeReceiptsGo bodies2 fb idx blocks = writeReceiptsGo bodies fb idx blocks := by
  induction blocks with
  | nil => intro idx _; rfl
  | cons rs rest ih =>
    intro idx hagree
    have hrest : ∀ i, i < rest.length → rest.getD i [] ≠ [] →
        bodies2 (fb + (idx + 1 + i)) = bodies (fb + (idx + 1 + i)) := by
      intro i hi hne
      have hcall := hagree (i + 1) (by simpa using Nat.succ_lt_succ hi) (by simpa using hne)
      rwa [show idx + (i + 1) = idx + 1 + i from by omega] at hcall
    rw [writeReceiptsGo, writeReceiptsGo]
    by_cases hemp : rs.isEmpty
    · rw [if_pos hemp, if_pos hemp]
      exact ih (idx + 1) hrest
    · rw [if_neg hemp, if_neg hemp]
      have hne : rs ≠ [] := by
        cases rs with
        | nil => simp [List.isEmpty] at hemp
        | cons a l => simp
      have heq := hagree 0 (by simp [Nat.succ_pos]) (by simpa using hne)
      rw [Nat.add_zero] at heq
      rw [heq, ih (idx + 1) hrest]

/-- C5: whenever every block with a non-empty receipt list has a block-body
entry, the receipt phase of `write_to_db` writes exactly the spec-described
sparse sequence — for each block with at least one non-pruned receipt the first
global transaction index is resolved from the block-body index and each present
receipt is appended at first index plus local offset, pruned slots are skipped —
and the result never depends on body-index entries of blocks whose receipt list
is empty (they are not looked up at all). -/
theorem c5_write_receipts_sparse (bodies : Nat → Option Nat)
    (s : BundleStateWithReceipts)
    (hall : ∀ i, i < s.receipts.length → s.receipts.getD i [] ≠ [] →
      (bodies (s.first_block + i)).isSome) :
    s.write_to_db_receipts bodies =
      some (specReceiptWrites bodies s.first_block 0 s.receipts) ∧
    (∀ bodies2, (∀ i, i < s.receipts.length → s.receipts.getD i [] ≠ [] →
        bodies2 (s.first_block + i) = bodies (s.first_block + i)) →
      s.write_to_db_receipts bodies2 = s.write_to_db_receipts bodies) :=
  ⟨writeReceiptsGo_eq_spec bodies s.first_block s.receipts 0 (by simpa using hall),
   fun bodies2 hagree =>
    writeReceiptsGo_frame bodies bodies2 s.first_block s.receipts 0
      (by simpa using hagree)⟩

/-- Concrete three-block bundle for the write-receipts witnesses: one block with
a present and a pruned receipt, one empty block, one all-pruned block. -/
def s5 : BundleStateWithReceipts :=
  { bundle := { state := [], contracts := [], reverts := [[], [], []] }
    receipts := [[some rc, none], [], [none]]
    first_block := 5 }

/-- Concrete block-body index for the write-receipts witnesses. -/
def bodies5 : Nat → Option Nat :=
  fun n => if n = 5 then some 100 else if n = 7 then some 200 else none

/-- Witness for C5 at a concrete bundle and block-body index. -/
theorem c5_write_receipts_sparse_witness :
    s5.write_to_db_receipts bodies5 =
      some (specReceiptWrites bodies5 5 0 s5.receipts) ∧
    s5.write_to_db_receipts bodies5 = some [(100, rc)] :=
  ⟨(c5_write_receipts_sparse bodies5 s5 (by decide)).1, by decide⟩

theorem writeReceiptsGo_eq_none_iff (bodies : Nat → Option Nat) (fb : Nat)
    (blocks : List (List (Option Receipt))) : ∀ (idx : Nat),
    writeReceiptsGo bodies fb idx blocks = none ↔
      ∃ i rs, blocks[i]? = some rs ∧ rs ≠ [] ∧ bodies (fb + (idx + i)) = none := by
  induction blocks with
  | nil =>
    intro idx
    constructor
    · intro h
      exact (Option.some_ne_none _ h).elim
    · rintro ⟨i, rs, hi, _, _⟩
      simp at hi
  | cons rs rest ih =>
    intro idx
    rw [writeReceiptsGo]
    by_cases hemp : rs.isEmpty
    · rw [if_pos hemp]
      have hrs : rs = [] := by
        cases rs with
        | nil => rfl
        | cons a l => simp [List.isEmpty] at hemp
      rw [ih (idx + 1)]
      constructor
      · rintro ⟨i, rs2, hi, hne, hb⟩
        exact ⟨i + 1, rs2, by simpa using hi, hne,
          by rwa [show idx + (i + 1) = idx + 1 + i from by omega]⟩
      · rintro ⟨i, rs2, hi, hne, hb⟩
        cases i with
        | zero =>
          rw [List.getElem?_cons_zero] at hi
          rw [← Option.some.inj hi, hrs] at hne
          exact absurd rfl hne
        | succ i =>
          exact ⟨i, rs2, by simpa using hi, hne,
            by rwa [show idx + 1 + i = idx + (i + 1) from by omega]⟩
    · rw [if_neg hemp]
      have hne0 : rs ≠ [] := by
        cases rs with
        | nil => simp [List.isEmpty] at hemp
        | cons a l => simp
      cases hb : bodies (fb + idx) with
      | none =>
        constructor
        · intro _
          exact ⟨0, rs, by simp, hne0, by simpa using hb⟩
        · intro _
          rfl
      | some f =>
        show ((writeReceiptsGo bodies fb (idx + 1) rest).map
            (fun tail => blockReceiptWrites f 0 rs ++ tail)) = none ↔ _
        rw [Option.map_eq_none', ih (idx + 1)]
        constructor
        · rintro ⟨i, rs2, hi, hne, hbi⟩
          exact ⟨i + 1, rs2, by simpa using hi, hne,
            by rwa [show idx + (i + 1) = idx + 1 + i from by omega]⟩
        · rintro ⟨i, rs2, hi, hne, hbi⟩
          cases i with
          | zero =>
            rw [Nat.add_zero] at hbi
            rw [hb] at hbi
            cases hbi
          | succ i =>
            exact ⟨i, rs2, by simpa using hi, hne,
              by rwa [show idx + 1 + i = idx + (i + 1) from by omega]⟩

/-- C6 (amended): the receipt phase of `write_to_db` hits the fatal invariant
violation (panic) exactly when some block in the bundle's range has a non-empty
receipt list — even one consisting only of pruned slots — but no entry in the
block-body index. -/
theorem c6_write_receipts_panic_iff (bodies : Nat → Option Nat)
    (s : BundleStateWithReceipts) :
    s.write_to_db_receipts bodies = none ↔
      ∃ i rs, s.receipts[i]? = some rs ∧ rs ≠ [] ∧
        bodies (s.first_block + i) = none := by
  rw [BundleStateWithReceipts.write_to_db_receipts,
    writeReceiptsGo_eq_none_iff bodies s.first_block s.receipts 0]
  simp only [Nat.zero_add]

/-- Concrete one-block bundle whose single receipt slot is pruned. -/
def s6 : BundleStateWithReceipts :=
  { bundle := { state := [], contracts := [], reverts := [[]] }
    receipts := [[none]]
    first_block := 0 }

/-- C6 counterexample: with one block whose receipt list is non-empty but fully
pruned and an empty block-body index, the code panics although no block has a
single non-pruned receipt — refuting the claimed "exactly when at least one
non-pruned receipt" condition. -/
theorem c6_write_receipts_counterexample :
    s6.write_to_db_receipts (fun _ => none) = none ∧
    s6.receipts.all (fun rs => rs.all (fun o => o.isNone)) = true := by decide

/-- Witness for C6 at the concrete all-pruned bundle and the empty body index. -/
theorem c6_write_receipts_panic_iff_witness :
    s6.write_to_db_receipts (fun _ => none) = none :=
  (c6_write_receipts_panic_iff (fun _ => none) s6).mpr
    ⟨0, [none], by simp [s6], by decide, rfl⟩

theorem lookupL_append {α : Type} (l1 l2 : List (Nat × α)) (x : Nat) :
    lookupL (l1 ++ l2) x =
      match lookupL l1 x with
      | some v => some v
      | none => lookupL l2 x := by
  induction l1 with
  | nil => rfl
  | cons p l1 ih =>
    by_cases h : p.1 = x <;> simp [lookupL, h, ih]

theorem lookupL_filter_key {α : Type} (pred : Nat → Bool) (l : List (Nat × α)) (x : Nat) :
    lookupL (l.filter (fun p => pred p.1)) x =
      if pred x = true then lookupL l x else none := by
  induction l with
  | nil => cases hp : pred x <;> simp [lookupL, hp]
  | cons p l ih =>
    rw [List.filter_cons]
    by_cases hkey : p.1 = x
    · subst hkey
      cases hp : pred p.1 <;> simp [lookupL, hp, ih]
    · cases hp : pred p.1 <;> simp [lookupL, hp, ih, hkey]

theorem lookupL_map_key {α β : Type} (f : Nat × α → Nat × β)
    (hf : ∀ p, (f p).1 = p.1) (l : List (Nat × α)) (x : Nat) :
    lookupL (l.map f) x = (lookupL l x).map (fun v => (f (x, v)).2) := by
  induction l with
  | nil => rfl
  | cons p l ih =>
    rw [List.map_cons]
    show (if (f p).1 = x then some (f p).2 else lookupL (l.map f) x) = _
    rw [hf p]
    by_cases h : p.1 = x
    · subst h
      rw [if_pos rfl]
      show _ = ((if p.1 = p.1 then some p.2 else lookupL l p.1)).map _
      rw [if_pos rfl]
      rfl
    · rw [if_neg h, ih]
      show _ = ((if p.1 = x then some p.2 else lookupL l x)).map _
      rw [if_neg h]

theorem lookupL_mergeStorage (a b : List (Nat × StorageSlot)) (x : Nat) :
    lookupL (mergeStorage a b) x =
      match lookupL b x with
      | some v => some v
      | none => lookupL a x := by
  rw [mergeStorage, lookupL_append, lookupL_filter_key (fun k => (lookupL b k).isNone) a x]
  cases hb : lookupL b x <;> simp [hb]

theorem lookupL_mergeState (a b : List (Nat × BundleAccount)) (x : Nat) :
    lookupL (mergeState a b) x =
      match lookupL a x with
      | some ea =>
        some (match lookupL b x with
          | some eb => ea.extendWith eb
          | none => ea)
      | none => lookupL b x := by
  rw [mergeState, lookupL_append,
    lookupL_map_key (mergeEntry b)
      (fun p => by unfold mergeEntry; cases h : lookupL b p.1 <;> simp [h]),
    lookupL_filter_key (fun k => (lookupL a k).isNone) b x]
  cases ha : lookupL a x with
  | some ea => cases hb : lookupL b x <;> simp [mergeEntry, hb]
  | none => simp

theorem isSome_map_opt {α β : Type} (f : α → β) (o : Option α) :
    (o.map f).isSome = o.isSome := by
  cases o <;> rfl

theorem mem_of_getLast?_eq_some {α : Type} {l : List α} {a : α}
    (h : l.getLast? = some a) : a ∈ l := by
  have hmem : a ∈ l.getLast? := Option.mem_def.mpr h
  obtain ⟨hne, heq⟩ := List.mem_getLast?_eq_getLast hmem
  rw [heq]
  exact List.getLast_mem hne

theorem isSome_setPresent (st : List (Nat × StorageSlot)) (k v x : Nat)
    (h : (lookupL (setPresent st k v) x).isSome = true) :
    x = k ∨ (lookupL st x).isSome = true := by
  unfold setPresent at h
  by_cases hk : (lookupL st k).isSome = true
  · rw [if_pos hk,
      lookupL_map_key (fun p => if p.1 = k then (p.1, { p.2 with presentValue := v }) else p)
        (fun p => by by_cases hp : p.1 = k <;> simp [hp]) st x, isSome_map_opt] at h
    exact Or.inr h
  · rw [if_neg hk, lookupL_append] at h
    cases hx : lookupL st x with
    | some w => exact Or.inr rfl
    | none =>
      by_cases hxk : k = x
      · exact Or.inl hxk.symm
      · simp [lookupL, hxk, hx] at h

theorem isSome_applySlotReverts (rs : List (Nat × Nat)) :
    ∀ (st : List (Nat × StorageSlot)) (x : Nat),
    (lookupL (applySlotReverts st rs) x).isSome = true →
    (lookupL st x).isSome = true ∨ ∃ q ∈ rs, q.1 = x := by
  induction rs with
  | nil => intro st x h; exact Or.inl h
  | cons q rs ih =>
    intro st x h
    rcases ih (setPresent st q.1 q.2) x h with h1 | h2
    · rcases isSome_setPresent st q.1 q.2 x h1 with h3 | h3
      · exact Or.inr ⟨q, by simp, h3.symm⟩
      · exact Or.inl h3
    · obtain ⟨q2, hq2, hx⟩ := h2
      exact Or.inr ⟨q2, by simp [hq2], hx⟩

theorem applyRevert_storage_keys (e : BundleAccount) (r : AccountRevert) (k : Nat)
    (h : (lookupL (e.applyRevert r).storage k).isSome = true) :
    (lookupL e.storage k).isSome = true ∨ ∃ q ∈ r.storage, q.1 = k := by
  rw [show (e.applyRevert r).storage =
    applySlotReverts (if r.wipeStorage then [] else e.storage) r.storage from rfl] at h
  rcases isSome_applySlotReverts r.storage _ k h with h1 | h2
  · by_cases hw : r.wipeStorage
    · rw [if_pos hw] at h1
      cases h1
    · rw [if_neg hw] at h1
      exact Or.inl h1
  · exact Or.inr h2

/-- Refinement between the original state map of a bundle and a state map
obtained from it by applying revert layers: the same addresses are known and
each entry's storage keys are a subset of the original entry's storage keys. -/
def stateRefines (orig cur : List (Nat × BundleAccount)) : Prop :=
  ∀ x, (lookupL cur x).isSome = (lookupL orig x).isSome ∧
    ∀ e1 e2, lookupL cur x = some e1 → lookupL orig x = some e2 →
      ∀ k, (lookupL e1.storage k).isSome = true → (lookupL e2.storage k).isSome = true

theorem stateRefines_refl (orig : List (Nat × BundleAccount)) :
    stateRefines orig orig := by
  intro x
  refine ⟨rfl, fun e1 e2 h1 h2 k hk => ?_⟩
  rw [h1] at h2
  rw [← Option.some.inj h2]
  exact hk

/-- Coherence of one revert layer with respect to a state map: every slot key
listed for an address present in the state occurs in that entry's storage. -/
def layerCoherentB (orig : List (Nat × BundleAccount))
    (layer : List (Nat × AccountRevert)) : Bool :=
  layer.all (fun p =>
    p.2.storage.all (fun q =>
      match lookupL orig p.1 with
      | some e => (lookupL e.storage q.1).isSome
      | none => true))

/-- Coherence of a whole bundle: every revert layer is coherent with the
aggregated state map (spec invariant: layers hold the values needed to undo
the covered blocks' changes). -/
def bundleCoherentB (b : BundleState) : Bool :=
  b.reverts.all (layerCoherentB b.state)

theorem stateRefines_applyRevertAt (orig cur : List (Nat × BundleAccount))
    (a : Nat) (r : AccountRevert) (href : stateRefines orig cur)
    (hcoh : ∀ q ∈ r.storage, ∀ e, lookupL orig a = some e →
      (lookupL e.storage q.1).isSome = true) :
    stateRefines orig (applyRevertAt cur a r) := by
  intro x
  have hmap : lookupL (applyRevertAt cur a r) x =
      (lookupL cur x).map
        (fun v => ((if x = a then (x, v.applyRevert r) else (x, v)) : Nat × BundleAccount).2) := by
    rw [applyRevertAt,
      lookupL_map_key (fun p => if p.1 = a then (p.1, p.2.applyRevert r) else p)
        (fun p => by by_cases hp : p.1 = a <;> simp [hp]) cur x]
  constructor
  · rw [hmap, isSome_map_opt]
    exact (href x).1
  · intro e1 e2 h1 h2 k hk
    rw [hmap] at h1
    cases hcx : lookupL cur x with
    | none =>
      rw [hcx] at h1
      cases h1
    | some v =>
      rw [hcx, Option.map_some'] at h1
      have he1 := (Option.some.inj h1)
      by_cases hxa : x = a
      · rw [if_pos hxa] at he1
        rw [← he1] at hk
        rcases applyRevert_storage_keys v r k hk with hkk | hkk
        · exact (href x).2 v e2 hcx h2 k hkk
        · obtain ⟨q, hq, hqk⟩ := hkk
          subst hxa
          have := hcoh q hq e2 h2
          rwa [hqk] at this
      · rw [if_neg hxa] at he1
        rw [← he1] at hk
        exact (href x).2 v e2 hcx h2 k hk

theorem stateRefines_applyLayer (orig : List (Nat × BundleAccount))
    (layer : List (Nat × AccountRevert)) : ∀ cur, stateRefines orig cur →
    layerCoherentB orig layer = true → stateRefines orig (applyLayer cur layer) := by
  induction layer with
  | nil => intro cur h _; exact h
  | cons p layer ih =>
    intro cur h hcoh
    rw [layerCoherentB, List.all_cons, Bool.and_eq_true] at hcoh
    show stateRefines orig (applyLayer (applyRevertAt cur p.1 p.2) layer)
    apply ih
    · apply stateRefines_applyRevertAt orig cur p.1 p.2 h
      intro q hq e he
      have hall := List.all_eq_true.mp hcoh.1 q hq
      rw [he] at hall
      exact hall
    · exact hcoh.2

theorem stateRefines_revert (n : Nat) : ∀ (bst : BundleState)
    (orig : List (Nat × BundleAccount)), stateRefines orig bst.state →
    (∀ layer ∈ bst.reverts, layerCoherentB orig layer = true) →
    stateRefines orig (bst.revert n).state := by
  induction n with
  | zero => intro bst orig h _; exact h
  | succ n ih =>
    intro bst orig h hcoh
    show stateRefines orig ((bst.revertOne).revert n).state
    apply ih
    · unfold BundleState.revertOne
      cases hg : bst.reverts.getLast? with
      | none => exact h
      | some layer =>
        exact stateRefines_applyLayer orig layer bst.state h
          (hcoh layer (mem_of_getLast?_eq_some hg))
    · intro layer hl
      rw [BundleState.revertOne_reverts] at hl
      exact hcoh layer ((List.dropLast_sublist _).subset hl)

namespace BundleStateWithReceipts

/-- C3: for a coherent bundle (its revert layers only mention storage slots
recorded in the aggregated state, the spec's "values needed to undo" invariant)
and any split point strictly inside the range, `split_at` followed by `extend`
of the two halves reproduces the original's final plain state — account and
storage reads agree everywhere — and its total receipts. -/
theorem c3_split_extend_round_trip (s : BundleStateWithReceipts) (at_ : Nat)
    (hcoh : bundleCoherentB s.bundle = true)
    (h1 : s.first_block < at_) (h2 : at_ < s.first_block + s.receipts.length) :
    ∃ lo hi, s.split_at at_ = some (some lo, hi) ∧
      (lo.extend hi).receipts = s.receipts ∧
      (∀ addr, (lo.extend hi).account addr = s.account addr) ∧
      (∀ addr k, (lo.extend hi).storage addr k = s.storage addr k) := by
  unfold bundleCoherentB at hcoh
  have hrt : (s.revert_to (at_ - 1)).2 =
      { s with
        receipts := s.receipts.take (at_ - s.first_block)
        bundle := s.bundle.revert (s.receipts.length - (at_ - s.first_block)) } := by
    simp only [revert_to, block_number_to_index_some s (at_ - 1) (by omega) (by omega)]
    rw [show at_ - 1 - s.first_block + 1 = at_ - s.first_block from by omega]
  have href : stateRefines s.bundle.state (s.revert_to (at_ - 1)).2.bundle.state := by
    rw [hrt]
    exact stateRefines_revert _ s.bundle s.bundle.state (stateRefines_refl _)
      (fun layer hl => List.all_eq_true.mp hcoh layer hl)
  refine ⟨(s.revert_to (at_ - 1)).2,
    { bundle := s.bundle.take_n_reverts (at_ - s.first_block)
      receipts := s.receipts.drop (at_ - s.first_block)
      first_block := at_ }, split_at_eq_of_lt s at_ h1 h2, ?_, ?_, ?_⟩
  · show (s.revert_to (at_ - 1)).2.receipts ++ s.receipts.drop (at_ - s.first_block) =
      s.receipts
    rw [hrt]
    exact List.take_append_drop _ _
  · intro addr
    show (lookupL (mergeState (s.revert_to (at_ - 1)).2.bundle.state s.bundle.state)
        addr).map (fun a => a.info) =
      (lookupL s.bundle.state addr).map (fun a => a.info)
    rw [lookupL_mergeState]
    cases hlo : lookupL (s.revert_to (at_ - 1)).2.bundle.state addr with
    | none => rfl
    | some ea =>
      have hsome : (lookupL s.bundle.state addr).isSome = true := by
        rw [← (href addr).1, hlo]
        rfl
      obtain ⟨eb, heb⟩ := Option.isSome_iff_exists.mp hsome
      rw [heb]
      simp [BundleAccount.extendWith]
  · intro addr k
    show (lookupL (mergeState (s.revert_to (at_ - 1)).2.bundle.state s.bundle.state)
        addr).bind (fun a => (lookupL a.storage k).map (fun v => v.presentValue)) =
      (lookupL s.bundle.state addr).bind
        (fun a => (lookupL a.storage k).map (fun v => v.presentValue))
    rw [lookupL_mergeState]
    cases hlo : lookupL (s.revert_to (at_ - 1)).2.bundle.state addr with
    | none => rfl
    | some ea =>
      have hsome : (lookupL s.bundle.state addr).isSome = true := by
        rw [← (href addr).1, hlo]
        rfl
      obtain ⟨eb, heb⟩ := Option.isSome_iff_exists.mp hsome
      rw [heb]
      show (lookupL (mergeStorage ea.storage eb.storage) k).map (fun v => v.presentValue) =
        (lookupL eb.storage k).map (fun v => v.presentValue)
      rw [lookupL_mergeStorage]
      cases hk : lookupL eb.storage k with
      | some v => rfl
      | none =>
        cases hka : lookupL ea.storage k with
        | none => rfl
        | some w =>
          have hcontr := (href addr).2 ea eb hlo heb k (by rw [hka]; rfl)
          rw [hk] at hcontr
          simp at hcontr

end BundleStateWithReceipts

/-- Concrete accounts for the round-trip witness. -/
def acct1 : Account := { nonce := 1, balance := 10, bytecodeHash := none }

/-- Prior account restored by the second revert layer of the witness bundle. -/
def acct0 : Account := { nonce := 0, balance := 5, bytecodeHash := none }

/-- Concrete coherent two-block bundle with storage diffs and revert layers. -/
def s3 : BundleStateWithReceipts :=
  { bundle :=
    { state := [(1, { info := some acct1, originalInfo := none
                      storage := [(5, { originalValue := 0, presentValue := 7 }),
                                  (6, { originalValue := 1, presentValue := 0 })]
                      wasDestroyed := false })]
      contracts := []
      reverts :=
        [[(1, { account := .deleteIt, storage := [(5, 0)], wipeStorage := false })],
         [(1, { account := .revertTo acct0, storage := [(5, 3), (6, 1)]
                wipeStorage := true })]] }
    receipts := [[some rc], [none, some rc]]
    first_block := 0 }

/-- Witness for C3: the concrete coherent bundle split at block 1 and re-extended
reproduces its plain state and receipts. -/
theorem c3_split_extend_round_trip_witness :
    ∃ lo hi, s3.split_at 1 = some (some lo, hi) ∧
      (lo.extend hi).receipts = s3.receipts ∧
      (∀ addr, (lo.extend hi).account addr = s3.account addr) ∧
      (∀ addr k, (lo.extend hi).storage addr k = s3.storage addr k) :=
  BundleStateWithReceipts.c3_split_extend_round_trip s3 1 (by decide) (by decide) (by decide)

/-- Modelled from the spec: hashed storage of one transition — a wipe marker for
destroyed accounts plus zero-valued and non-zero-valued slot operations keyed by
hashed slot key (reth_trie `HashedStorage`). -/
structure HashedStorage where
  wiped : Bool
  zeroValuedSlots : List Nat
  nonZeroValuedSlots : List (Nat × Nat)
deriving Repr, DecidableEq

/-- Modelled from the spec: the hashed post state — accounts and destroyed
accounts keyed by hashed address, plus per-account hashed storage
(reth_trie `HashedPostState`). -/
structure HashedPostState where
  accounts : List (Nat × Account)
  destroyedAccounts : List Nat
  storages : List (Nat × HashedStorage)
deriving Repr, DecidableEq

/-- Fresh hashed storage carrying the wipe marker of a destroyed transition. -/
def HashedStorage.new (wiped : Bool) : HashedStorage :=
  { wiped := wiped, zeroValuedSlots := [], nonZeroValuedSlots := [] }

/-- Record a zero-valued (deleted) slot under its hashed key. -/
def HashedStorage.insert_zero_valued_slot (st : HashedStorage) (k : Nat) : HashedStorage :=
  { st with zeroValuedSlots := st.zeroValuedSlots ++ [k] }

/-- Record a non-zero-valued slot under its hashed key. -/
def HashedStorage.insert_non_zero_valued_storage (st : HashedStorage) (k v : Nat) :
    HashedStorage :=
  { st with nonZeroValuedSlots := st.nonZeroValuedSlots ++ [(k, v)] }

/-- Register a present account under its hashed address. -/
def HashedPostState.insert_account (hs : HashedPostState) (k : Nat) (a : Account) :
    HashedPostState :=
  { hs with accounts := hs.accounts ++ [(k, a)] }

/-- Mark a hashed address as destroyed. -/
def HashedPostState.insert_destroyed_account (hs : HashedPostState) (k : Nat) :
    HashedPostState :=
  { hs with destroyedAccounts := hs.destroyedAccounts ++ [k] }

/-- Attach the hashed storage of one account. -/
def HashedPostState.insert_hashed_storage (hs : HashedPostState) (k : Nat)
    (st : HashedStorage) : HashedPostState :=
  { hs with storages := hs.storages ++ [(k, st)] }

/-- Insertion into a key-sorted association list. -/
def insertByKey {α : Type} (p : Nat × α) : List (Nat × α) → List (Nat × α)
  | [] => [p]
  | q :: rest => if p.1 ≤ q.1 then p :: q :: rest else q :: insertByKey p rest

/-- Sort an association list by key. -/
def sortByKey {α : Type} (l : List (Nat × α)) : List (Nat × α) :=
  l.foldr insertByKey []

/-- Insertion into a sorted list of naturals. -/
def insertNat (n : Nat) : List Nat → List Nat
  | [] => [n]
  | m :: rest => if n ≤ m then n :: m :: rest else m :: insertNat n rest

/-- Sort a list of naturals. -/
def sortNat (l : List Nat) : List Nat := l.foldr insertNat []

/-- Sorted view of a hashed storage: both slot collections ordered by hashed key. -/
def HashedStorage.sorted (st : HashedStorage) : HashedStorage :=
  { st with
    zeroValuedSlots := sortNat st.zeroValuedSlots
    nonZeroValuedSlots := sortByKey st.nonZeroValuedSlots }

/-- Sorted view of the hashed post state: every collection ordered by hashed key. -/
def HashedPostState.sorted (hs : HashedPostState) : HashedPostState :=
  { accounts := sortByKey hs.accounts
    destroyedAccounts := sortNat hs.destroyedAccounts
    storages := sortByKey (hs.storages.map (fun p => (p.1, p.2.sorted))) }

theorem insertByKey_perm {α : Type} (p : Nat × α) (l : List (Nat × α)) :
    (insertByKey p l).Perm (p :: l) := by
  induction l with
  | nil => exact List.Perm.refl _
  | cons q rest ih =>
    rw [insertByKey]
    by_cases hle : p.1 ≤ q.1
    · rw [if_pos hle]
    · rw [if_neg hle]
      exact (ih.cons q).trans (List.Perm.swap p q rest)

theorem sortByKey_perm {α : Type} (l : List (Nat × α)) : (sortByKey l).Perm l := by
  induction l with
  | nil => exact List.Perm.refl _
  | cons p l ih =>
    exact (insertByKey_perm p (sortByKey l)).trans (ih.cons p)

theorem insertByKey_pairwise {α : Type} (p : Nat × α) (l : List (Nat × α))
    (h : l.Pairwise (fun a b => a.1 ≤ b.1)) :
    (insertByKey p l).Pairwise (fun a b => a.1 ≤ b.1) := by
  induction l with
  | nil => simp [insertByKey]
  | cons q rest ih =>
    rw [insertByKey]
    rw [List.pairwise_cons] at h
    by_cases hle : p.1 ≤ q.1
    · rw [if_pos hle]
      refine List.Pairwise.cons ?_ (List.pairwise_cons.mpr h)
      intro b hb
      rcases List.mem_cons.mp hb with rfl | hb
      · exact hle
      · exact Nat.le_trans hle (h.1 b hb)
    · rw [if_neg hle]
      refine List.Pairwise.cons ?_ (ih h.2)
      intro b hb
      rcases List.mem_cons.mp ((insertByKey_perm p rest).mem_iff.mp hb) with rfl | hb
      · exact Nat.le_of_not_le hle
      · exact h.1 b hb

theorem sortByKey_pairwise {α : Type} (l : List (Nat × α)) :
    (sortByKey l).Pairwise (fun a b => a.1 ≤ b.1) := by
  induction l with
  | nil => exact List.Pairwise.nil
  | cons p l ih => exact insertByKey_pairwise p (sortByKey l) ih

theorem insertNat_perm (n : Nat) (l : List Nat) : (insertNat n l).Perm (n :: l) := by
  induction l with
  | nil => exact List.Perm.refl _
  | cons m rest ih =>
    rw [insertNat]
    by_cases hle : n ≤ m
    · rw [if_pos hle]
    · rw [if_neg hle]
      exact (ih.cons m).trans (List.Perm.swap n m rest)

theorem sortNat_perm (l : List Nat) : (sortNat l).Perm l := by
  induction l with
  | nil => exact List.Perm.refl _
  | cons n l ih =>
    exact (insertNat_perm n (sortNat l)).trans (ih.cons n)

theorem insertNat_pairwise (n : Nat) (l : List Nat)
    (h : l.Pairwise (· ≤ ·)) : (insertNat n l).Pairwise (· ≤ ·) := by
  induction l with
  | nil => simp [insertNat]
  | cons m rest ih =>
    rw [insertNat]
    rw [List.pairwise_cons] at h
    by_cases hle : n ≤ m
    · rw [if_pos hle]
      refine List.Pairwise.cons ?_ (List.pairwise_cons.mpr h)
      intro b hb
      rcases List.mem_cons.mp hb with rfl | hb
      · exact hle
      · exact Nat.le_trans hle (h.1 b hb)
    · rw [if_neg hle]
      refine List.Pairwise.cons ?_ (ih h.2)
      intro b hb
      rcases List.mem_cons.mp ((insertNat_perm n rest).mem_iff.mp hb) with rfl | hb
      · exact Nat.le_of_not_le hle
      · exact h.1 b hb

theorem sortNat_pairwise (l : List Nat) : (sortNat l).Pairwise (· ≤ ·) := by
  induction l with
  | nil => exact List.Pairwise.nil
  | cons n l ih => exact insertNat_pairwise n (sortNat l) ih

theorem eq_of_perm_of_pairwise_key {α : Type} (l1 l2 : List (Nat × α))
    (hp : l1.Perm l2) (hs1 : l1.Pairwise (fun a b => a.1 ≤ b.1))
    (hs2 : l2.Pairwise (fun a b => a.1 ≤ b.1))
    (hn : (l1.map Prod.fst).Nodup) : l1 = l2 := by
  haveI : IsAntisymm (Nat × α) (fun a b => a.1 < b.1) :=
    ⟨fun a b hab hba => absurd hba (Nat.lt_asymm hab)⟩
  have hne1 : l1.Pairwise (fun a b => a.1 ≠ b.1) := (List.pairwise_map.mp hn)
  have hn2 : (l2.map Prod.fst).Nodup := ((hp.map Prod.fst).nodup_iff).mp hn
  have hne2 : l2.Pairwise (fun a b => a.1 ≠ b.1) := (List.pairwise_map.mp hn2)
  have hlt1 : l1.Pairwise (fun a b => a.1 < b.1) :=
    (hs1.and hne1).imp (fun hab => Nat.lt_of_le_of_ne hab.1 hab.2)
  have hlt2 : l2.Pairwise (fun a b => a.1 < b.1) :=
    (hs2.and hne2).imp (fun hab => Nat.lt_of_le_of_ne hab.1 hab.2)
  exact List.eq_of_perm_of_sorted hp hlt1 hlt2

theorem sortByKey_eq_of_perm {α : Type} (l1 l2 : List (Nat × α)) (hp : l1.Perm l2)
    (hn : (l1.map Prod.fst).Nodup) : sortByKey l1 = sortByKey l2 := by
  refine eq_of_perm_of_pairwise_key _ _ ?_ (sortByKey_pairwise l1) (sortByKey_pairwise l2) ?_
  · exact (sortByKey_perm l1).trans (hp.trans (sortByKey_perm l2).symm)
  · exact (((sortByKey_perm l1).map Prod.fst).nodup_iff).mpr hn

theorem sortNat_eq_of_perm (l1 l2 : List Nat) (hp : l1.Perm l2) :
    sortNat l1 = sortNat l2 := by
  haveI : IsAntisymm Nat (fun a b => a ≤ b) := ⟨fun a b hab hba => Nat.le_antisymm hab hba⟩
  exact List.eq_of_perm_of_sorted
    ((sortNat_perm l1).trans (hp.trans (sortNat_perm l2).symm))
    (sortNat_pairwise l1) (sortNat_pairwise l2)

/-- One storage-slot step of `hash_state_slow`: zero present values go through
the zero-valued-slot operation, other values through the non-zero one, both
keyed by the hashed slot key. -/
def hashSlotStep (h : Nat → Nat) (st : HashedStorage) (kv : Nat × StorageSlot) :
    HashedStorage :=
  if kv.2.presentValue = 0 then st.insert_zero_valued_slot (h kv.1)
  else st.insert_non_zero_valued_storage (h kv.1) kv.2.presentValue

/-- Hashed storage of one bundle entry, wiped when the account was destroyed. -/
def hashedStorageOf (h : Nat → Nat) (acc : BundleAccount) : HashedStorage :=
  acc.storage.foldl (hashSlotStep h) (HashedStorage.new acc.wasDestroyed)

/-- One account step of `hash_state_slow`: a present account is registered under
its hashed address, an absent one is marked destroyed; the entry's hashed
storage is attached under the same hashed address. -/
def hashStateStep (h : Nat → Nat) (hs : HashedPostState) (p : Nat × BundleAccount) :
    HashedPostState :=
  (match p.2.info with
    | some a => hs.insert_account (h p.1) a
    | none => hs.insert_destroyed_account (h p.1)).insert_hashed_storage
    (h p.1) (hashedStorageOf h p.2)

/-- Hash all changed accounts and storage entries of the post state; the
cryptographic hash is the parameter `h`. -/
def BundleStateWithReceipts.hash_state_slow (h : Nat → Nat)
    (s : BundleStateWithReceipts) : HashedPostState :=
  (s.bundle.state.foldl (hashStateStep h)
    { accounts := [], destroyedAccounts := [], storages := [] }).sorted

theorem foldl_hashSlotStep_wiped (h : Nat → Nat) (l : List (Nat × StorageSlot)) :
    ∀ st, (l.foldl (hashSlotStep h) st).wiped = st.wiped := by
  induction l with
  | nil => intro st; rfl
  | cons kv l ih =>
    intro st
    rw [List.foldl_cons, ih]
    unfold hashSlotStep
    by_cases hz : kv.2.presentValue = 0 <;>
      simp [hz, HashedStorage.insert_zero_valued_slot,
        HashedStorage.insert_non_zero_valued_storage]

theorem foldl_hashSlotStep_zero (h : Nat → Nat) (l : List (Nat × StorageSlot)) :
    ∀ st, (l.foldl (hashSlotStep h) st).zeroValuedSlots =
      st.zeroValuedSlots ++
        l.filterMap (fun kv => if kv.2.presentValue = 0 then some (h kv.1) else none) := by
  induction l with
  | nil => intro st; simp
  | cons kv l ih =>
    intro st
    rw [List.foldl_cons, ih, List.filterMap_cons]
    by_cases hz : kv.2.presentValue = 0 <;>
      simp [hz, hashSlotStep, HashedStorage.insert_zero_valued_slot,
        HashedStorage.insert_non_zero_valued_storage]

theorem foldl_hashSlotStep_nonzero (h : Nat → Nat) (l : List (Nat × StorageSlot)) :
    ∀ st, (l.foldl (hashSlotStep h) st).nonZeroValuedSlots =
      st.nonZeroValuedSlots ++
        l.filterMap (fun kv => if kv.2.presentValue = 0 then none
          else some (h kv.1, kv.2.presentValue)) := by
  induction l with
  | nil => intro st; simp
  | cons kv l ih =>
    intro st
    rw [List.foldl_cons, ih, List.filterMap_cons]
    by_cases hz : kv.2.presentValue = 0 <;>
      simp [hz, hashSlotStep, HashedStorage.insert_zero_valued_slot,
        HashedStorage.insert_non_zero_valued_storage]

theorem hashedStorageOf_wiped (h : Nat → Nat) (acc : BundleAccount) :
    (hashedStorageOf h acc).wiped = acc.wasDestroyed :=
  foldl_hashSlotStep_wiped h acc.storage _

theorem hashedStorageOf_zero (h : Nat → Nat) (acc : BundleAccount) :
    (hashedStorageOf h acc).zeroValuedSlots =
      acc.storage.filterMap
        (fun kv => if kv.2.presentValue = 0 then some (h kv.1) else none) := by
  rw [hashedStorageOf, foldl_hashSlotStep_zero]
  rfl

theorem hashedStorageOf_nonzero (h : Nat → Nat) (acc : BundleAccount) :
    (hashedStorageOf h acc).nonZeroValuedSlots =
      acc.storage.filterMap (fun kv => if kv.2.presentValue = 0 then none
        else some (h kv.1, kv.2.presentValue)) := by
  rw [hashedStorageOf, foldl_hashSlotStep_nonzero]
  rfl

theorem foldl_hashStateStep_accounts (h : Nat → Nat)
    (l : List (Nat × BundleAccount)) : ∀ hs, (l.foldl (hashStateStep h) hs).accounts =
      hs.accounts ++ l.filterMap (fun p => p.2.info.map (fun a => (h p.1, a))) := by
  induction l with
  | nil => intro hs; simp
  | cons p l ih =>
    intro hs
    rw [List.foldl_cons, ih, List.filterMap_cons]
    cases hi : p.2.info with
    | some a =>
      simp [hashStateStep, hi, HashedPostState.insert_hashed_storage,
        HashedPostState.insert_account]
    | none =>
      simp [hashStateStep, hi, HashedPostState.insert_hashed_storage,
        HashedPostState.insert_destroyed_account]

theorem foldl_hashStateStep_destroyed (h : Nat → Nat)
    (l : List (Nat × BundleAccount)) : ∀ hs,
      (l.foldl (hashStateStep h) hs).destroyedAccounts =
      hs.destroyedAccounts ++ l.filterMap (fun p =>
        match p.2.info with
        | some _ => none
        | none => some (h p.1)) := by
  induction l with
  | nil => intro hs; simp
  | cons p l ih =>
    intro hs
    rw [List.foldl_cons, ih, List.filterMap_cons]
    cases hi : p.2.info with
    | some a =>
      simp [hashStateStep, hi, HashedPostState.insert_hashed_storage,
        HashedPostState.insert_account]
    | none =>
      simp [hashStateStep, hi, HashedPostState.insert_hashed_storage,
        HashedPostState.insert_destroyed_account]

theorem foldl_hashStateStep_storages (h : Nat → Nat)
    (l : List (Nat × BundleAccount)) : ∀ hs, (l.foldl (hashStateStep h) hs).storages =
      hs.storages ++ l.map (fun p => (h p.1, hashedStorageOf h p.2)) := by
  induction l with
  | nil => intro hs; simp
  | cons p l ih =>
    intro hs
    rw [List.foldl_cons, ih, List.map_cons]
    cases hi : p.2.info with
    | some a =>
      simp [hashStateStep, hi, HashedPostState.insert_hashed_storage,
        HashedPostState.insert_account]
    | none =>
      simp [hashStateStep, hi, HashedPostState.insert_hashed_storage,
        HashedPostState.insert_destroyed_account]

theorem hash_state_slow_accounts (h : Nat → Nat) (s : BundleStateWithReceipts) :
    (s.hash_state_slow h).accounts = sortByKey
      (s.bundle.state.filterMap (fun p => p.2.info.map (fun a => (h p.1, a)))) := by
  show sortByKey ((s.bundle.state.foldl (hashStateStep h)
    { accounts := [], destroyedAccounts := [], storages := [] }).accounts) = _
  rw [foldl_hashStateStep_accounts, List.nil_append]

theorem hash_state_slow_destroyed (h : Nat → Nat) (s : BundleStateWithReceipts) :
    (s.hash_state_slow h).destroyedAccounts = sortNat
      (s.bundle.state.filterMap (fun p =>
        match p.2.info with
        | some _ => none
        | none => some (h p.1))) := by
  show sortNat ((s.bundle.state.foldl (hashStateStep h)
    { accounts := [], destroyedAccounts := [], storages := [] }).destroyedAccounts) = _
  rw [foldl_hashStateStep_destroyed, List.nil_append]

theorem hash_state_slow_storages (h : Nat → Nat) (s : BundleStateWithReceipts) :
    (s.hash_state_slow h).storages = sortByKey
      (s.bundle.state.map (fun p => (h p.1, (hashedStorageOf h p.2).sorted))) := by
  show sortByKey (((s.bundle.state.foldl (hashStateStep h)
    { accounts := [], destroyedAccounts := [], storages := [] }).storages).map
      (fun p => (p.1, p.2.sorted))) = _
  rw [foldl_hashStateStep_storages, List.nil_append, List.map_map]
  rfl

theorem accounts_keys_sublist (h : Nat → Nat) (l : List (Nat × BundleAccount)) :
    ((l.filterMap (fun p => p.2.info.map (fun a => (h p.1, a)))).map Prod.fst).Sublist
      (l.map (fun p => h p.1)) := by
  induction l with
  | nil => simp
  | cons p l ih =>
    rw [List.filterMap_cons]
    cases hi : p.2.info with
    | none =>
      rw [Option.map_none', List.map_cons]
      exact ih.cons _
    | some a =>
      rw [Option.map_some', List.map_cons, List.map_cons]
      exact ih.cons₂ _

theorem hashedPostState_eq_of_fields (x y : HashedPostState)
    (h1 : x.accounts = y.accounts) (h2 : x.destroyedAccounts = y.destroyedAccounts)
    (h3 : x.storages = y.storages) : x = y := by
  cases x
  cases y
  cases h1
  cases h2
  cases h3
  rfl

/-- C4: in the hashed-state projection, an address with an absent present
account is marked destroyed under its hashed address and otherwise the present
account is registered under that hash; each storage slot is indexed by the
hashed slot key, zero present values via the zero-valued-slot operation and
others via the non-zero-valued one; the storage of a destroyed account carries
the wipe marker; and when the hashed addresses are distinct, every collection of
the output is sorted by hashed key and invariant under permutations of the
input entries. -/
theorem BundleStateWithReceipts.c4_hash_state_slow (h : Nat → Nat)
    (s : BundleStateWithReceipts)
    (hn : (s.bundle.state.map (fun p => h p.1)).Nodup) :
    (∀ a e, (a, e) ∈ s.bundle.state →
      (e.info = none → h a ∈ (s.hash_state_slow h).destroyedAccounts) ∧
      (∀ acct, e.info = some acct → (h a, acct) ∈ (s.hash_state_slow h).accounts) ∧
      (∃ st, (h a, st) ∈ (s.hash_state_slow h).storages ∧
        st.wiped = e.wasDestroyed ∧
        (∀ k v, (k, v) ∈ e.storage →
          (v.presentValue = 0 → h k ∈ st.zeroValuedSlots) ∧
          (v.presentValue ≠ 0 → (h k, v.presentValue) ∈ st.nonZeroValuedSlots)))) ∧
    (s.hash_state_slow h).accounts.Pairwise (fun p q => p.1 ≤ q.1) ∧
    (s.hash_state_slow h).destroyedAccounts.Pairwise (· ≤ ·) ∧
    (s.hash_state_slow h).storages.Pairwise (fun p q => p.1 ≤ q.1) ∧
    (∀ s2 : BundleStateWithReceipts, s2.bundle.state.Perm s.bundle.state →
      s2.hash_state_slow h = s.hash_state_slow h) := by
  refine ⟨?_, ?_, ?_, ?_, ?_⟩
  · intro a e hmem
    refine ⟨?_, ?_, ?_⟩
    · intro hnone
      rw [hash_state_slow_destroyed]
      refine (sortNat_perm _).mem_iff.mpr ?_
      exact List.mem_filterMap.mpr ⟨(a, e), hmem, by simp [hnone]⟩
    · intro acct hsome
      rw [hash_state_slow_accounts]
      refine (sortByKey_perm _).mem_iff.mpr ?_
      exact List.mem_filterMap.mpr ⟨(a, e), hmem, by simp [hsome]⟩
    · refine ⟨(hashedStorageOf h e).sorted, ?_, ?_, ?_⟩
      · rw [hash_state_slow_storages]
        refine (sortByKey_perm _).mem_iff.mpr ?_
        exact List.mem_map_of_mem _ hmem
      · show (hashedStorageOf h e).wiped = e.wasDestroyed
        exact hashedStorageOf_wiped h e
      · intro k v hkv
        constructor
        · intro hv0
          show h k ∈ sortNat (hashedStorageOf h e).zeroValuedSlots
          refine (sortNat_perm _).mem_iff.mpr ?_
          rw [hashedStorageOf_zero]
          exact List.mem_filterMap.mpr ⟨(k, v), hkv, by simp [hv0]⟩
        · intro hvne
          show (h k, v.presentValue) ∈ sortByKey (hashedStorageOf h e).nonZeroValuedSlots
          refine (sortByKey_perm _).mem_iff.mpr ?_
          rw [hashedStorageOf_nonzero]
          exact List.mem_filterMap.mpr ⟨(k, v), hkv, by simp [hvne]⟩
  · rw [hash_state_slow_accounts]
    exact sortByKey_pairwise _
  · rw [hash_state_slow_destroyed]
    exact sortNat_pairwise _
  · rw [hash_state_slow_storages]
    exact sortByKey_pairwise _
  · intro s2 hperm
    have hn2 : (s2.bundle.state.map (fun p => h p.1)).Nodup :=
      ((hperm.map (fun p => h p.1)).nodup_iff).mpr hn
    apply hashedPostState_eq_of_fields
    · rw [hash_state_slow_accounts, hash_state_slow_accounts]
      apply sortByKey_eq_of_perm
      · exact hperm.filterMap _
      · exact hn2.sublist (accounts_keys_sublist h s2.bundle.state)
    · rw [hash_state_slow_destroyed, hash_state_slow_destroyed]
      exact sortNat_eq_of_perm _ _ (hperm.filterMap _)
    · rw [hash_state_slow_storages, hash_state_slow_storages]
      apply sortByKey_eq_of_perm
      · exact hperm.map _
      · rw [List.map_map]
        exact hn2

/-- Destroyed entry used by the hashed-state witness. -/
def e9 : BundleAccount :=
  { info := none, originalInfo := some acct1
    storage := [(2, { originalValue := 1, presentValue := 0 })]
    wasDestroyed := true }

/-- Live entry used by the hashed-state witness. -/
def e3 : BundleAccount :=
  { info := some acct1, originalInfo := none
    storage := [(4, { originalValue := 0, presentValue := 7 })]
    wasDestroyed := false }

/-- Concrete bundle whose entries are deliberately out of key order. -/
def s4 : BundleStateWithReceipts :=
  { bundle := { state := [(9, e9), (3, e3)], contracts := [], reverts := [] }
    receipts := []
    first_block := 0 }

/-- Witness for C4 at a concrete two-entry bundle inserted in descending order. -/
theorem c4_hash_state_slow_witness :
    ((9 : Nat) ∈ (s4.hash_state_slow (fun n => n)).destroyedAccounts) ∧
    (s4.hash_state_slow (fun n => n)).accounts.Pairwise (fun p q => p.1 ≤ q.1) ∧
    (s4.hash_state_slow (fun n => n)).storages.Pairwise (fun p q => p.1 ≤ q.1) :=
  ⟨((BundleStateWithReceipts.c4_hash_state_slow (fun n => n) s4 (by decide)).1 9 e9
      (by decide)).1 rfl,
   (BundleStateWithReceipts.c4_hash_state_slow (fun n => n) s4 (by decide)).2.1,
   (BundleStateWithReceipts.c4_hash_state_slow (fun n => n) s4 (by decide)).2.2.2.1⟩
